import Mathlib

/-!
Verification of the angle-distance function developed in
`Unit_testing.ipynb`.  The notebook iterates on a small pure function
`angle_distance(a, b)`; its final version is

  def angle_distance(a, b):
      d = abs((b % 360) - (a % 360))
      return min(360 - d, d)

where `%` is Python's modulo, which for a positive right operand returns a
value in `[0, b)` (mathematical modulo, not a truncating remainder).  We
embed the function over the real numbers and prove the properties stated
in the specification.
-/

/-- Python's binary `%` on real operands: `a % b = a - b * ⌊a / b⌋`.
For a positive right operand this is the mathematical modulo, whose result
lies in `[0, b)` even for a negative left operand. -/
noncomputable def pymod (a b : ℝ) : ℝ := a - b * ⌊a / b⌋

/-- The final version of `angle_distance` from `Unit_testing.ipynb`:
`d = abs((b % 360) - (a % 360)); return min(360 - d, d)`. -/
noncomputable def angle_distance (a b : ℝ) : ℝ :=
  let d := |pymod b 360 - pymod a 360|
  min (360 - d) d

/-- The third (unnormalized) version of `angle_distance` that appears
earlier in the notebook: `d = abs(b - a); return min(360 - d, d)`. -/
noncomputable def angle_distance_v3 (a b : ℝ) : ℝ :=
  let d := |b - a|
  min (360 - d) d

/-- The specification's normalization step, written independently of
`pymod`: reduce an angle modulo 360 into `[0, 360)` by scaling the
fractional part of `x / 360`. -/
noncomputable def specNormalize (x : ℝ) : ℝ := 360 * Int.fract (x / 360)

/-- The specification's reference definition of the angular distance:
normalize both inputs into `[0, 360)`, take the absolute difference `d`
of the normalized values, and return `min (360 - d) d`. -/
noncomputable def angle_distance_ref (a b : ℝ) : ℝ :=
  let d := |specNormalize b - specNormalize a|
  min (360 - d) d

theorem pymod_eq_mul_fract (a b : ℝ) (hb : b ≠ 0) :
    pymod a b = b * Int.fract (a / b) := by
  unfold pymod Int.fract
  rw [mul_sub, mul_div_cancel₀ a hb]

theorem pymod_nonneg (a b : ℝ) (hb : 0 < b) : 0 ≤ pymod a b := by
  rw [pymod_eq_mul_fract a b hb.ne']
  exact mul_nonneg hb.le (Int.fract_nonneg _)

theorem pymod_lt (a b : ℝ) (hb : 0 < b) : pymod a b < b := by
  rw [pymod_eq_mul_fract a b hb.ne']
  calc b * Int.fract (a / b) < b * 1 :=
        mul_lt_mul_of_pos_left (Int.fract_lt_one _) hb
    _ = b := mul_one b

theorem pymod_eq_self (a b : ℝ) (h0 : 0 ≤ a) (hab : a < b) : pymod a b = a := by
  have hbpos : 0 < b := lt_of_le_of_lt h0 hab
  have hfloor : ⌊a / b⌋ = 0 := by
    rw [Int.floor_eq_zero_iff]
    exact ⟨div_nonneg h0 hbpos.le, (div_lt_one hbpos).mpr hab⟩
  simp [pymod, hfloor]

theorem pymod_add_int_mul (a b : ℝ) (k : ℤ) (hb : b ≠ 0) :
    pymod (a + b * k) b = pymod a b := by
  unfold pymod
  have hdiv : (a + b * k) / b = a / b + k := by
    field_simp
    ring
  rw [hdiv, Int.floor_add_int]
  push_cast
  ring

theorem pymod_of_neg (e : ℝ) (h0 : -360 < e) (h1 : e < 0) :
    pymod e 360 = e + 360 := by
  have hrepr : e = (e + 360) + 360 * ((-1 : ℤ) : ℝ) := by
    push_cast
    ring
  conv_lhs => rw [hrepr]
  rw [pymod_add_int_mul (e + 360) 360 (-1) (by norm_num)]
  exact pymod_eq_self (e + 360) 360 (by linarith) (by linarith)

theorem pymod_sub_pymod (a b : ℝ) :
    pymod (pymod b 360 - pymod a 360) 360 = pymod (b - a) 360 := by
  have h : pymod b 360 - pymod a 360 =
      (b - a) + 360 * ((⌊a / 360⌋ - ⌊b / 360⌋ : ℤ) : ℝ) := by
    unfold pymod
    push_cast
    ring
  rw [h, pymod_add_int_mul (b - a) 360 _ (by norm_num)]

/-- The distance computed by `angle_distance` depends only on the
difference of the inputs reduced modulo 360. -/
theorem angle_distance_eq (a b : ℝ) :
    angle_distance a b =
      min (pymod (b - a) 360) (360 - pymod (b - a) 360) := by
  have h360 : (0:ℝ) < 360 := by norm_num
  have hb0 := pymod_nonneg b 360 h360
  have hb1 := pymod_lt b 360 h360
  have ha0 := pymod_nonneg a 360 h360
  have ha1 := pymod_lt a 360 h360
  rw [← pymod_sub_pymod a b]
  simp only [angle_distance]
  rcases le_or_lt 0 (pymod b 360 - pymod a 360) with h | h
  · rw [pymod_eq_self _ 360 h (by linarith), abs_of_nonneg h]
    exact min_comm _ _
  · rw [pymod_of_neg (pymod b 360 - pymod a 360) (by linarith) h, abs_of_neg h]
    have h1 : (360:ℝ) - -(pymod b 360 - pymod a 360) =
        pymod b 360 - pymod a 360 + 360 := by ring
    have h2 : (360:ℝ) - (pymod b 360 - pymod a 360 + 360) =
        -(pymod b 360 - pymod a 360) := by ring
    rw [h1, h2]

/-- C1: the final `angle_distance` equals the spec's reference definition:
each input is reduced modulo 360 into `[0, 360)`, `d` is the absolute
difference of the normalized values, and the result is `min (360 - d) d`. -/
theorem angle_distance_eq_ref (a b : ℝ) :
    angle_distance a b = angle_distance_ref a b := by
  have hnorm : ∀ x : ℝ, specNormalize x = pymod x 360 := by
    intro x
    rw [pymod_eq_mul_fract x 360 (by norm_num), specNormalize]
  simp only [angle_distance, angle_distance_ref, hnorm]

/-- C2: the result of the final `angle_distance` is bounded:
`0 ≤ angle_distance a b ≤ 180` for all real `a`, `b`. -/
theorem angle_distance_bounds (a b : ℝ) :
    0 ≤ angle_distance a b ∧ angle_distance a b ≤ 180 := by
  rw [angle_distance_eq]
  have h0 := pymod_nonneg (b - a) 360 (by norm_num)
  have h1 := pymod_lt (b - a) 360 (by norm_num)
  refine ⟨le_min h0 (by linarith), ?_⟩
  rcases le_or_lt (pymod (b - a) 360) 180 with h | h
  · exact le_trans (min_le_left _ _) h
  · exact le_trans (min_le_right _ _) (by linarith)

/-- C3: the final `angle_distance` is symmetric in its arguments. -/
theorem angle_distance_symm (a b : ℝ) :
    angle_distance a b = angle_distance b a := by
  simp only [angle_distance, abs_sub_comm]

/-- C4: the final `angle_distance` is periodic with period 360 in its
first argument: `angle_distance (a + 360 * k) b = angle_distance a b`
for every integer `k`. -/
theorem angle_distance_periodic (a b : ℝ) (k : ℤ) :
    angle_distance (a + 360 * k) b = angle_distance a b := by
  simp only [angle_distance, pymod_add_int_mul a 360 k (by norm_num : (360:ℝ) ≠ 0)]

/-- C5: the final `angle_distance` of an angle with itself is zero. -/
theorem angle_distance_self (a : ℝ) : angle_distance a a = 0 := by
  rw [angle_distance_eq]
  have h : a - a = (0:ℝ) := by ring
  rw [h, pymod_eq_self 0 360 le_rfl (by norm_num)]
  norm_num

/-- C6: for antipodal inputs the final `angle_distance` attains the
maximum: `angle_distance a (a + 180) = 180`. -/
theorem angle_distance_antipodal (a : ℝ) : angle_distance a (a + 180) = 180 := by
  rw [angle_distance_eq]
  have h : a + 180 - a = (180:ℝ) := by ring
  rw [h, pymod_eq_self 180 360 (by norm_num) (by norm_num)]
  norm_num

/-- C7: the final `angle_distance` returns the spec's expected values on
the four concrete test scenarios of the notebook. -/
theorem angle_distance_scenarios :
    angle_distance 10 90 = 80 ∧ angle_distance 0 270 = 90 ∧
      angle_distance 1 359 = 2 ∧ angle_distance 720 270 = 90 := by
  refine ⟨?_, ?_, ?_, ?_⟩
  · rw [angle_distance_eq]
    have h : (90:ℝ) - 10 = 80 := by norm_num
    rw [h, pymod_eq_self 80 360 (by norm_num) (by norm_num)]
    norm_num [min_def]
  · rw [angle_distance_eq]
    have h : (270:ℝ) - 0 = 270 := by norm_num
    rw [h, pymod_eq_self 270 360 (by norm_num) (by norm_num)]
    norm_num [min_def]
  · rw [angle_distance_eq]
    have h : (359:ℝ) - 1 = 358 := by norm_num
    rw [h, pymod_eq_self 358 360 (by norm_num) (by norm_num)]
    norm_num [min_def]
  · rw [angle_distance_eq]
    have h : (270:ℝ) - 720 = 270 + 360 * ((-2 : ℤ) : ℝ) := by
      push_cast
      norm_num
    rw [h, pymod_add_int_mul 270 360 (-2) (by norm_num),
      pymod_eq_self 270 360 (by norm_num) (by norm_num)]
    norm_num [min_def]

/-- C8: the final `angle_distance` is total over the reals, and its
normalization step reduces any real input, negative inputs included, into
`[0, 360)`: `0 ≤ pymod a 360 < 360` for every real `a`. -/
theorem pymod_360_range (a : ℝ) : 0 ≤ pymod a 360 ∧ pymod a 360 < 360 :=
  ⟨pymod_nonneg a 360 (by norm_num), pymod_lt a 360 (by norm_num)⟩

/-- C9: the final `angle_distance` is invariant under a common rotation of
both inputs: `angle_distance (a + c) (b + c) = angle_distance a b`. -/
theorem angle_distance_rotation (a b c : ℝ) :
    angle_distance (a + c) (b + c) = angle_distance a b := by
  rw [angle_distance_eq, angle_distance_eq]
  have h : b + c - (a + c) = b - a := by ring
  rw [h]

/-- C10: on inputs already in the canonical range `[0, 360)`, the third
(unnormalized) version of `angle_distance` agrees with the final one. -/
theorem angle_distance_v3_agrees (a b : ℝ) (ha0 : 0 ≤ a) (ha1 : a < 360)
    (hb0 : 0 ≤ b) (hb1 : b < 360) :
    angle_distance_v3 a b = angle_distance a b := by
  simp only [angle_distance_v3, angle_distance,
    pymod_eq_self a 360 ha0 ha1, pymod_eq_self b 360 hb0 hb1]

/-- Witness for C10 at the concrete input `a = 10`, `b = 90`. -/
theorem angle_distance_v3_agrees_witness :
    0 ≤ (10:ℝ) ∧ (10:ℝ) < 360 ∧ 0 ≤ (90:ℝ) ∧ (90:ℝ) < 360 ∧
      angle_distance_v3 10 90 = angle_distance 10 90 :=
  ⟨by norm_num, by norm_num, by norm_num, by norm_num,
    angle_distance_v3_agrees 10 90 (by norm_num) (by norm_num)
      (by norm_num) (by norm_num)⟩
